import Mathlib

/-!
Shallow embedding of the hugging-face-bot repository (src/hf_bot), covering:

* `models.py`       — derivative-model classification (`is_derivative_model`);
* `monitoring.py`   — the per-cycle diff/notify/persist algorithm (`poll_once`);
* `state.py`        — `load_state` over a JSON document model;
* `clients/huggingface.py` — `_paginate` and `_extract_images`;
* `handlers.py`     — the duel-session race (`_battle_final_timeout` vs
  `_handle_battle_evaluate`) and the context aggregator (`_gather_context`).

Python strings are modelled through their character lists so that every
definition is executable by the kernel.
-/

namespace HfBot

/- ═══════════════ Python string primitives ═══════════════ -/

/-- Character-level model of Python `s.lower()` (ASCII case folding). -/
def strLower (s : String) : String := ⟨s.data.map Char.toLower⟩

/-- Model of Python `s.endswith(t)`. -/
def strEndsWith (s suffix : String) : Bool := suffix.data.isSuffixOf s.data

/-- Helper for `strContains`: does `needle` occur contiguously in `hay`? -/
def listInfixCheck (needle : List Char) : List Char → Bool
  | [] => needle.isEmpty
  | c :: rest => needle.isPrefixOf (c :: rest) || listInfixCheck needle rest

/-- Model of Python `t in s` (contiguous-substring containment). -/
def strContains (s infixStr : String) : Bool := listInfixCheck infixStr.data s.data

/-- Model of Python `s.startswith(t)`. -/
def strStartsWith (s pre : String) : Bool := pre.data.isPrefixOf s.data

/-- Model of Python `s.strip()` (trim surrounding whitespace). -/
def pyStrip (s : String) : String :=
  ⟨((s.data.dropWhile Char.isWhitespace).reverse.dropWhile Char.isWhitespace).reverse⟩

/-- Model of Python `s.lstrip('./')`. -/
def lstripDotSlash (s : String) : String :=
  ⟨s.data.dropWhile (fun c => c = '.' || c = '/')⟩

/-- Everything after the first slash of `s`, or `s` itself when no slash occurs:
the character-level reading of Python `s.split("/", 1)[-1]`. -/
def afterFirstSlashAux : List Char → Option (List Char)
  | [] => none
  | '/' :: rest => some rest
  | _ :: rest => afterFirstSlashAux rest

/-- Model of Python `s.split("/", 1)[-1]`. -/
def afterFirstSlash (s : String) : String :=
  match afterFirstSlashAux s.data with
  | some cs => ⟨cs⟩
  | none => s

/-- Model of Python `s.split("\n")[0]` (the text before the first newline). -/
def firstLine (s : String) : String := ⟨s.data.takeWhile (fun c => c ≠ '\n')⟩

/-- Python truthiness of an optional string (`None` and `""` are falsy). -/
def strTruthy : Option String → Bool
  | none => false
  | some s => s ≠ ""

/- ═══════════════ models.py ═══════════════ -/

/-- Suffix list `DERIVATIVE_SUFFIXES` from `models.py`. -/
def DERIVATIVE_SUFFIXES : List String :=
  ["-gguf", "-fp8", "-fp4", "-bf16", "-int4", "-int8",
   "-awq", "-gptq", "-nvfp4", "-onnx",
   "-base", "-pretrain", "-original",
   "-eagle", "-unquantized"]

/-- `is_derivative_model` from `models.py`: lowercase the name part after the
first slash and test it against the suffix tuple. -/
def is_derivative_model (model_id : String) : Bool :=
  let name := strLower (afterFirstSlash model_id)
  DERIVATIVE_SUFFIXES.any (fun s => strEndsWith name s)

/- ═══════════════ monitoring.py : poll_once ═══════════════ -/

/-- One element of the list returned by `fetch_models_for_org`. -/
structure FetchedModel where
  id : String
  last_modified : String
deriving DecidableEq, Repr

/-- The per-organisation record stored under `state["orgs"][org]`
(a dict of the shape `\x7b"models": [...]\x7d`). -/
structure OrgState where
  models : List String
deriving DecidableEq, Repr

/-- The `state["orgs"]` mapping, as an insertion-ordered association list
(Python `dict` semantics). -/
abbrev Orgs := List (String × OrgState)

/-- Python `state["orgs"].get(org)`. -/
def lookupOrg : Orgs → String → Option OrgState
  | [], _ => none
  | (k, v) :: rest, org => if k = org then some v else lookupOrg rest org

/-- Python `state["orgs"][org] = v`: overwrite in place, or append a new key. -/
def setOrg : Orgs → String → OrgState → Orgs
  | [], org, v => [(org, v)]
  | (k, w) :: rest, org, v =>
      if k = org then (org, v) :: rest else (k, w) :: setOrg rest org v

/-- The seen-set deduplication loop of `poll_once` (preserving first-occurrence
order). -/
def dedupLoop (seen : List String) (acc : List String) : List String → List String
  | [] => acc
  | mid :: rest =>
      if mid ∈ seen then dedupLoop seen acc rest
      else dedupLoop (mid :: seen) (acc ++ [mid]) rest

/-- `current_ids`: fetched ids deduplicated preserving provider order. -/
def dedupIds (ids : List String) : List String := dedupLoop [] [] ids

/-- Accumulated effect of one monitoring cycle: the `state["orgs"]` mapping,
the notifications sent so far (publisher, model id, in send order) and the
`changed` flag. -/
structure PollAcc where
  orgs : Orgs
  notifications : List (String × String)
  changed : Bool
deriving DecidableEq, Repr

/-- The body of the per-organisation loop of `poll_once`: skip an empty fetch,
deduplicate, baseline-sync when no previous state exists, otherwise diff
against the previous id set, notify non-derivative new ids in reverse fetched
order, and overwrite the stored list when it changed. -/
def pollOrg (st : PollAcc) (org : String) (models : List FetchedModel) : PollAcc :=
  if models = [] then st
  else
    let current_ids := dedupIds (models.map FetchedModel.id)
    match lookupOrg st.orgs org with
    | none =>
        { st with orgs := setOrg st.orgs org ⟨current_ids⟩, changed := true }
    | some org_state =>
        let new_ids := current_ids.filter (fun mid => mid ∉ org_state.models)
        if new_ids ≠ [] then
          let main_models := new_ids.filter (fun mid => ¬ is_derivative_model mid)
          { orgs := setOrg st.orgs org ⟨current_ids⟩,
            notifications :=
              st.notifications ++ main_models.reverse.map (fun mid => (org, mid)),
            changed := true }
        else if current_ids ≠ org_state.models then
          { st with orgs := setOrg st.orgs org ⟨current_ids⟩, changed := true }
        else st

/-- Result of `poll_once`: final `orgs` state, notifications in send order, and
whether `save_state` was called (`changed`). -/
structure PollResult where
  orgs : Orgs
  notifications : List (String × String)
  persisted : Bool
deriving DecidableEq, Repr

/-- `poll_once` over the joined fetch results (one `(org, models)` pair per
organisation, an empty list standing for a failed or empty fetch). -/
def poll_once (orgs0 : Orgs) (results : List (String × List FetchedModel)) :
    PollResult :=
  let fin := results.foldl (fun st p => pollOrg st p.1 p.2)
    { orgs := orgs0, notifications := [], changed := false }
  { orgs := fin.orgs, notifications := fin.notifications, persisted := fin.changed }

/- ═══════════════ state.py : load_state ═══════════════ -/

/-- JSON documents, as read by `json.load`. -/
inductive Json where
  | null
  | bool (b : Bool)
  | num (n : Int)
  | str (s : String)
  | arr (xs : List Json)
  | obj (fields : List (String × Json))

/-- Outcome of opening and parsing the state file. `failure` covers exactly
the three exceptions the `except` clause catches (`FileNotFoundError`,
`OSError`, `json.JSONDecodeError`); `undecodable` is file content that is not
valid UTF-8, on which `json.load` raises `UnicodeDecodeError` — an exception
outside the caught tuple. -/
inductive ReadResult where
  | failure
  | undecodable
  | content (j : Json)

/-- Lookup in a JSON object (Python `dict` access by key). -/
def jLookup : List (String × Json) → String → Option Json
  | [], _ => none
  | (k, v) :: rest, key => if k = key then some v else jLookup rest key

/-- Python `dict.setdefault(key, v)`: keep an existing binding (whatever its
value), otherwise append the default at the end. -/
def jSetdefault (fields : List (String × Json)) (key : String) (v : Json) :
    List (String × Json) :=
  match jLookup fields key with
  | some _ => fields
  | none => fields ++ [(key, v)]

/-- `_empty_state()` from `state.py`. -/
def emptyState : Json :=
  .obj [(("orgs"), .obj []), (("chat_users"), .obj []), (("question_bank"), .arr [])]

/-- The three `setdefault` calls of `load_state`, in source order. -/
def loadStateFields (fields : List (String × Json)) : List (String × Json) :=
  jSetdefault (jSetdefault (jSetdefault fields ("orgs") (.obj []))
    ("chat_users") (.obj [])) ("question_bank") (.arr [])

/-- `load_state` from `state.py`. `Except.error` models an exception escaping
the function: on undecodable content `json.load` raises `UnicodeDecodeError`,
which is not in the caught tuple, so it propagates. A caught read failure or a
non-dict document yields the fresh empty document; a dict is returned with the
three top-level keys defaulted via `setdefault`. -/
def load_state : ReadResult → Except Unit Json
  | .failure => .ok emptyState
  | .undecodable => .error ()
  | .content j =>
      match j with
      | .obj fields => .ok (.obj (loadStateFields fields))
      | _ => .ok emptyState

/- ═══════════════ clients/huggingface.py : _paginate ═══════════════ -/

/-- `_PAGE_SIZE` from `clients/huggingface.py`. -/
def PAGE_SIZE : Nat := 1000

/-- One upstream response: the JSON batch and the `rel="next"` target
extracted from the `Link` header, when present. -/
structure PageResponse (α : Type) where
  batch : List α
  next : Option String

/-- The `for _ in range(max_pages)` loop of `_paginate`, over an arbitrary
upstream behaviour `resp` (indexed by fetch count). Returns the accumulated
items and the number of page fetches performed. -/
def paginateAux (resp : Nat → PageResponse α) : Nat → Nat → List α × Nat
  | 0, _ => ([], 0)
  | n + 1, i =>
      let r := resp i
      if r.batch.isEmpty then ([], 1)
      else if r.batch.length < PAGE_SIZE then (r.batch, 1)
      else
        match r.next with
        | none => (r.batch, 1)
        | some _ =>
            let rest := paginateAux resp n (i + 1)
            (r.batch ++ rest.1, rest.2 + 1)

/-- `_paginate` with its page budget (default `max_pages = 50`). -/
def paginate (resp : Nat → PageResponse α) (max_pages : Nat := 50) :
    List α × Nat :=
  paginateAux resp max_pages 0

/- ═══════════════ clients/huggingface.py : _extract_images ═══════════════ -/

/-- `_RELEVANT_IMG_KW` from `clients/huggingface.py`. -/
def RELEVANT_IMG_KW : List String :=
  ["benchmark", "performance", "comparison", "chart", "graph",
   "result", "eval", "score", "accuracy", "metrics", "leaderboard", "table"]

/-- The decorative-asset test of `_extract_images`
(`any(s in url.lower() for s in (...))`). -/
def isDecorative (url : String) : Bool :=
  [("badge"), ("shield"), ("icon"), (".svg"), ("logo")].any
    (fun s => strContains (strLower url) s)

/-- Resolution of a repository-relative path to an absolute URL. -/
def resolveRelative (model_id url : String) : String :=
  ("https://huggingface.co/") ++ model_id ++ ("/resolve/main/") ++ lstripDotSlash url

/-- The normalisation loop of `_extract_images`: strip, drop decorative URLs,
make relative paths absolute. -/
def normalizeImgs (model_id : String) : List String → List String
  | [] => []
  | u :: rest =>
      let url := pyStrip u
      if isDecorative url then normalizeImgs model_id rest
      else if strStartsWith url ("http") then url :: normalizeImgs model_id rest
      else resolveRelative model_id url :: normalizeImgs model_id rest

/-- Keyword test deciding the `relevant` bucket of `_extract_images`. -/
def isRelevantImg (url : String) : Bool :=
  RELEVANT_IMG_KW.any (fun kw => strContains (strLower url) kw)

/-- The seen-set uniqueness loop of `_extract_images`. -/
def uniqueLoop (seen : List String) (acc : List String) : List String → List String
  | [] => acc
  | u :: rest =>
      if u ∈ seen then uniqueLoop seen acc rest
      else uniqueLoop (u :: seen) (acc ++ [u]) rest

/-- `_extract_images` from the raw regex matches onward: normalise and filter,
partition into keyword-relevant and other URLs, deduplicate `relevant + others`
preserving order, and cap at `max_images`. -/
def extract_images (raw : List String) (model_id : String) (max_images : Nat) :
    List String :=
  let normalized := normalizeImgs model_id raw
  let relevant := normalized.filter (fun u => isRelevantImg u)
  let others := normalized.filter (fun u => ¬ isRelevantImg u)
  (uniqueLoop [] [] (relevant ++ others)).take max_images

/- ═══════════════ handlers.py : duel session race ═══════════════ -/

/-- A duel session record stored in `bot_data["battles"]`. -/
structure Battle where
  question : String
  answer : String
  type : String
deriving DecidableEq, Repr

/-- The two user-visible outcome messages raced over by the evaluation path
and the final-timeout job. -/
inductive DuelMsg where
  | result
  | timeout
deriving DecidableEq, Repr

/-- Scheduler-visible state for one conversation: the optional session entry,
the outcome messages sent so far, how far the evaluation path has progressed
(`0` not dispatched, `1` session read and awaiting the LLM, `2` finished), and
whether the final-timeout job has fired. -/
structure DuelWorld where
  battles : Option Battle
  messages : List DuelMsg
  evalPhase : Nat
  timerFired : Bool
deriving DecidableEq, Repr

/-- One atomic step of the evaluation path. Phase 0 is the synchronous part of
`handle_message`: read `battles.get(chat_id)` and dispatch only when a session
exists. Phase 1 resumes `_handle_battle_evaluate` after its awaits: delete the
session if still present and send the verdict message unconditionally. -/
def stepEval (w : DuelWorld) : DuelWorld :=
  match w.evalPhase with
  | 0 =>
      match w.battles with
      | some _ => { w with evalPhase := 1 }
      | none => { w with evalPhase := 2 }
  | 1 => { w with battles := none, messages := w.messages ++ [.result], evalPhase := 2 }
  | _ => w

/-- The atomic body of `_battle_final_timeout`: if the session is present,
delete it and send the timeout message; otherwise no-op. The job fires at most
once. -/
def stepTimer (w : DuelWorld) : DuelWorld :=
  if w.timerFired then w
  else
    match w.battles with
    | some _ =>
        { battles := none, messages := w.messages ++ [.timeout],
          evalPhase := w.evalPhase, timerFired := true }
    | none => { w with timerFired := true }

/-- Which task the single-threaded scheduler runs next. -/
inductive DuelTurn where
  | eval
  | timer
deriving DecidableEq, Repr

/-- Run an interleaving of the evaluation path and the timeout job. -/
def runSched : List DuelTurn → DuelWorld → DuelWorld
  | [], w => w
  | .eval :: ts, w => runSched ts (stepEval w)
  | .timer :: ts, w => runSched ts (stepTimer w)

/-- Initial state: an active session, no messages yet, neither racer run. -/
def duelInit (b : Battle) : DuelWorld :=
  { battles := some b, messages := [], evalPhase := 0, timerFired := false }

/-- The states reachable from `duelInit b` under any interleaving of the
evaluation path and the timeout job. -/
def DuelReach (b : Battle) (w : DuelWorld) : Prop :=
  w = ⟨some b, [], 0, false⟩ ∨ w = ⟨some b, [], 1, false⟩ ∨
  w = ⟨none, [.timeout], 0, true⟩ ∨ w = ⟨none, [.result], 2, false⟩ ∨
  w = ⟨none, [.timeout], 1, true⟩ ∨ w = ⟨none, [.timeout], 2, true⟩ ∨
  w = ⟨none, [.result], 2, true⟩ ∨ w = ⟨none, [.timeout, .result], 2, true⟩

/- ═══════════════ handlers.py : _gather_context ═══════════════ -/

/-- One web-search hit. -/
structure SearchHit where
  title : String
  snippet : String
  url : String
deriving DecidableEq, Repr

/-- Joined outcome of one fan-out task, tagged by task type as in the `tasks`
list of `_gather_context`; `Except.error` stands for a raised exception or a
timeout surfaced by `gather(..., return_exceptions=True)`. -/
inductive TaskOutcome where
  | modelTask (r : Except Unit (Option String × List String))
  | searchTask (r : Except Unit (Option String × List String))
  | arxivTask (r : Except Unit (Option String))
  | urlTask (r : Except Unit (Option String))
  | webTask (r : Except Unit (List SearchHit))

/-- The four accumulators of the classification loop of `_gather_context`. -/
structure Classified where
  models_data : List String
  search_results : List SearchHit
  url_contents : List String
  all_images : List String
deriving DecidableEq, Repr

/-- Helper of `classifyStep` for `model`/`search` tasks: append a truthy text
and extend the image pool with a non-empty image list. -/
def applyModelData (acc : Classified) (text : Option String) (imgs : List String) :
    Classified :=
  let acc1 :=
    if strTruthy text then
      { acc with models_data := acc.models_data ++ [text.getD ("")] }
    else acc
  if imgs ≠ [] then { acc1 with all_images := acc1.all_images ++ imgs } else acc1

/-- The body of the result-classification loop of `_gather_context`: a raised
result is skipped; `model`/`search` results feed `models_data`/`all_images`;
the `web` result replaces `search_results`; truthy `url`/`arxiv` results are
appended to `url_contents`. -/
def classifyStep (acc : Classified) : TaskOutcome → Classified
  | .modelTask (.error _) => acc
  | .modelTask (.ok (text, imgs)) => applyModelData acc text imgs
  | .searchTask (.error _) => acc
  | .searchTask (.ok (text, imgs)) => applyModelData acc text imgs
  | .webTask (.error _) => acc
  | .webTask (.ok rs) => { acc with search_results := rs }
  | .arxivTask (.error _) => acc
  | .arxivTask (.ok c) =>
      if strTruthy c then { acc with url_contents := acc.url_contents ++ [c.getD ("")] }
      else acc
  | .urlTask (.error _) => acc
  | .urlTask (.ok c) =>
      if strTruthy c then { acc with url_contents := acc.url_contents ++ [c.getD ("")] }
      else acc

/-- The `_GatheredContext` dataclass. -/
structure GatheredContext where
  hf_context : Option String
  url_context : Option String
  web_context : Option String
  image_urls : List String
deriving DecidableEq, Repr

/-- The first-line-keyed seen-set loop deduplicating `models_data`. -/
def dedupByFirstLine (seen : List String) (acc : List String) :
    List String → List String
  | [] => acc
  | d :: rest =>
      let key := firstLine d
      if key ∈ seen then dedupByFirstLine seen acc rest
      else dedupByFirstLine (key :: seen) (acc ++ [d]) rest

/-- The context-assembly tail of `_gather_context`. `formatResults` abstracts
`search_client.format_results`. -/
def assembleContext (formatResults : List SearchHit → String) (c : Classified) :
    GatheredContext :=
  { image_urls := c.all_images.take 3,
    hf_context :=
      if c.models_data ≠ [] then
        some (String.intercalate ("\n\n") ((dedupByFirstLine [] [] c.models_data).take 4))
      else none,
    url_context :=
      if c.url_contents ≠ [] then some (String.intercalate ("\n\n") c.url_contents)
      else none,
    web_context :=
      if c.search_results ≠ [] then some (formatResults c.search_results)
      else none }

/-- `_gather_context` from the joined task results onward: classify every
outcome and assemble the bundle. A total function — no task failure escapes. -/
def gather_context (formatResults : List SearchHit → String)
    (tasks : List TaskOutcome) : GatheredContext :=
  assembleContext formatResults (tasks.foldl classifyStep ⟨[], [], [], []⟩)

/-- Does a task outcome represent a successful (non-raising) task? -/
def taskOk : TaskOutcome → Bool
  | .modelTask (.ok _) => true
  | .searchTask (.ok _) => true
  | .arxivTask (.ok _) => true
  | .urlTask (.ok _) => true
  | .webTask (.ok _) => true
  | _ => false

/-- The image list a task contributes to the `all_images` pool. -/
def taskImages : TaskOutcome → List String
  | .modelTask (.ok (_, imgs)) => imgs
  | .searchTask (.ok (_, imgs)) => imgs
  | _ => []

/- ═══════════════ helper lemmas : org map and dedup ═══════════════ -/

theorem lookup_setOrg_self (m : Orgs) (org : String) (v : OrgState) :
    lookupOrg (setOrg m org v) org = some v := by
  induction m with
  | nil => simp [setOrg, lookupOrg]
  | cons kv rest ih =>
      obtain ⟨k, w⟩ := kv
      by_cases hk : k = org
      · simp [setOrg, hk, lookupOrg]
      · simp [setOrg, hk, lookupOrg, ih]

theorem lookup_setOrg_ne (m : Orgs) (org k : String) (v : OrgState)
    (h : k ≠ org) : lookupOrg (setOrg m org v) k = lookupOrg m k := by
  induction m with
  | nil =>
      simp only [setOrg, lookupOrg]
      rw [if_neg (fun e => h e.symm)]
  | cons kv rest ih =>
      obtain ⟨k', w⟩ := kv
      by_cases hk : k' = org
      · subst hk
        simp [setOrg, lookupOrg, Ne.symm h]
      · simp [setOrg, hk, lookupOrg, ih]

/-- Single-organisation run of `poll_once`, empty fetch: a no-op. -/
theorem poll_single_empty (orgs0 : Orgs) (org : String) :
    poll_once orgs0 [(org, [])] = ⟨orgs0, [], false⟩ := by
  simp [poll_once, pollOrg]

/-- Single-organisation run, no previous state: baseline sync. -/
theorem poll_single_baseline (orgs0 : Orgs) (org : String)
    (models : List FetchedModel) (h1 : lookupOrg orgs0 org = none)
    (h2 : models ≠ []) :
    poll_once orgs0 [(org, models)] =
      ⟨setOrg orgs0 org ⟨dedupIds (models.map FetchedModel.id)⟩, [], true⟩ := by
  simp [poll_once, pollOrg, h1, h2]

/-- Single-organisation run, previous state present, some ids are new. -/
theorem poll_single_new (orgs0 : Orgs) (org : String)
    (models : List FetchedModel) (os : OrgState)
    (h1 : lookupOrg orgs0 org = some os) (h2 : models ≠ [])
    (h3 : ∃ x ∈ dedupIds (models.map FetchedModel.id), x ∉ os.models) :
    poll_once orgs0 [(org, models)] =
      ⟨setOrg orgs0 org ⟨dedupIds (models.map FetchedModel.id)⟩,
       ((((dedupIds (models.map FetchedModel.id)).filter
           (fun mid => mid ∉ os.models)).filter
           (fun mid => ¬ is_derivative_model mid)).reverse).map (fun mid => (org, mid)),
       true⟩ := by
  simp [poll_once, pollOrg, h1, h2, h3]

/-- Single-organisation run, previous state present, nothing new, but the
stored representation differs: silent overwrite and persist. -/
theorem poll_single_stale (orgs0 : Orgs) (org : String)
    (models : List FetchedModel) (os : OrgState)
    (h1 : lookupOrg orgs0 org = some os) (h2 : models ≠ [])
    (h3 : ∀ x ∈ dedupIds (models.map FetchedModel.id), x ∈ os.models)
    (h4 : dedupIds (models.map FetchedModel.id) ≠ os.models) :
    poll_once orgs0 [(org, models)] =
      ⟨setOrg orgs0 org ⟨dedupIds (models.map FetchedModel.id)⟩, [], true⟩ := by
  have h3' : ¬ ∃ x ∈ dedupIds (models.map FetchedModel.id), x ∉ os.models := by
    push_neg
    exact h3
  simp [poll_once, pollOrg, h1, h2, h3', h4]

/-- Single-organisation run, previous state present and identical: a no-op. -/
theorem poll_single_same (orgs0 : Orgs) (org : String)
    (models : List FetchedModel) (os : OrgState)
    (h1 : lookupOrg orgs0 org = some os) (h2 : models ≠ [])
    (h4 : dedupIds (models.map FetchedModel.id) = os.models) :
    poll_once orgs0 [(org, models)] = ⟨orgs0, [], false⟩ := by
  have h3' : ¬ ∃ x ∈ dedupIds (models.map FetchedModel.id), x ∉ os.models := by
    push_neg
    intro a ha
    rw [← h4]
    exact ha
  simp [poll_once, pollOrg, h1, h2, h3', h4]

/-- Membership characterisation of the seen-set dedup loop. -/
theorem mem_dedupLoop (a : String) :
    ∀ (l seen acc : List String),
      (a ∈ dedupLoop seen acc l ↔ a ∈ acc ∨ (a ∈ l ∧ a ∉ seen)) := by
  intro l
  induction l with
  | nil => intro seen acc; simp [dedupLoop]
  | cons mid rest ih =>
      intro seen acc
      by_cases hm : mid ∈ seen
      · rw [dedupLoop, if_pos hm, ih]
        constructor
        · rintro (h | ⟨h1, h2⟩)
          · exact Or.inl h
          · exact Or.inr ⟨List.mem_cons_of_mem _ h1, h2⟩
        · rintro (h | ⟨h1, h2⟩)
          · exact Or.inl h
          · rcases List.mem_cons.mp h1 with h1 | h1
            · subst h1; exact absurd hm h2
            · exact Or.inr ⟨h1, h2⟩
      · rw [dedupLoop, if_neg hm, ih]
        constructor
        · rintro (h | ⟨h1, h2⟩)
          · rcases List.mem_append.mp h with h | h
            · exact Or.inl h
            · rcases List.mem_singleton.mp h with rfl
              exact Or.inr ⟨List.mem_cons_self _ _, hm⟩
          · refine Or.inr ⟨List.mem_cons_of_mem _ h1, fun hs => h2 (List.mem_cons.mpr ?_)⟩
            exact Or.inr hs
        · rintro (h | ⟨h1, h2⟩)
          · exact Or.inl (List.mem_append.mpr (Or.inl h))
          · rcases List.mem_cons.mp h1 with rfl | h1
            · exact Or.inl (List.mem_append.mpr (Or.inr (List.mem_singleton.mpr rfl)))
            · by_cases ha : a = mid
              · subst ha
                exact Or.inl (List.mem_append.mpr (Or.inr (List.mem_singleton.mpr rfl)))
              · refine Or.inr ⟨h1, fun hs => ?_⟩
                rcases List.mem_cons.mp hs with h | h
                · exact ha h
                · exact h2 h

/-- Deduplication preserves the id set. -/
theorem mem_dedupIds (a : String) (l : List String) :
    a ∈ dedupIds l ↔ a ∈ l := by
  rw [dedupIds, mem_dedupLoop]
  simp

/-- After a non-empty single-org cycle, the stored list for the org is the
deduplicated fetched list (whatever branch was taken). -/
theorem poll_single_stores (orgs0 : Orgs) (org : String)
    (models : List FetchedModel) (hm : models ≠ []) :
    ∃ os', lookupOrg (poll_once orgs0 [(org, models)]).orgs org = some os' ∧
      os'.models = dedupIds (models.map FetchedModel.id) := by
  cases h1 : lookupOrg orgs0 org with
  | none =>
      rw [poll_single_baseline orgs0 org models h1 hm]
      exact ⟨_, lookup_setOrg_self orgs0 org _, rfl⟩
  | some os =>
      by_cases h3 : ∃ x ∈ dedupIds (models.map FetchedModel.id), x ∉ os.models
      · rw [poll_single_new orgs0 org models os h1 hm h3]
        exact ⟨_, lookup_setOrg_self orgs0 org _, rfl⟩
      · push_neg at h3
        by_cases h4 : dedupIds (models.map FetchedModel.id) = os.models
        · rw [poll_single_same orgs0 org models os h1 hm h4]
          exact ⟨os, h1, h4.symm⟩
        · rw [poll_single_stale orgs0 org models os h1 hm h3 h4]
          exact ⟨_, lookup_setOrg_self orgs0 org _, rfl⟩

/-- C2. For a publisher with previous stored state, the cycle notifies exactly
the fetched-but-not-stored main-release ids, in reverse fetched order (oldest
of the new batch first); stored ids are never notified. -/
theorem claim_C2_diff_ordering (orgs0 : Orgs) (org : String)
    (models : List FetchedModel) (os : OrgState)
    (h1 : lookupOrg orgs0 org = some os) (h2 : models ≠ []) :
    (poll_once orgs0 [(org, models)]).notifications =
      (((dedupIds (models.map FetchedModel.id)).filter
          (fun mid => mid ∉ os.models ∧ ¬ is_derivative_model mid)).reverse).map
        (fun mid => (org, mid)) := by
  by_cases h3 : ∃ x ∈ dedupIds (models.map FetchedModel.id), x ∉ os.models
  · rw [poll_single_new orgs0 org models os h1 h2 h3]
    simp only [List.filter_filter]
    congr 1
    congr 1
    apply List.filter_congr
    intro a _
    simp [Bool.decide_and, Bool.and_comm]
  · push_neg at h3
    have hrhs : (dedupIds (models.map FetchedModel.id)).filter
        (fun mid => decide (mid ∉ os.models ∧ ¬ is_derivative_model mid)) = [] := by
      rw [List.filter_eq_nil_iff]
      intro a ha
      simp only [decide_eq_true_eq, not_and]
      intro hnot
      exact absurd (h3 a ha) hnot
    by_cases h4 : dedupIds (models.map FetchedModel.id) = os.models
    · rw [poll_single_same orgs0 org models os h1 h2 h4, hrhs]
      rfl
    · rw [poll_single_stale orgs0 org models os h1 h2 h3 h4, hrhs]
      rfl

/-- C3. For a publisher with no previous stored state, a non-empty fetched
listing produces zero notifications and the stored state becomes the
deduplicated fetched list. -/
theorem claim_C3_baseline_sync (orgs0 : Orgs) (org : String)
    (models : List FetchedModel)
    (h1 : lookupOrg orgs0 org = none) (h2 : models ≠ []) :
    (poll_once orgs0 [(org, models)]).notifications = [] ∧
    lookupOrg (poll_once orgs0 [(org, models)]).orgs org
      = some ⟨dedupIds (models.map FetchedModel.id)⟩ := by
  rw [poll_single_baseline orgs0 org models h1 h2]
  exact ⟨rfl, lookup_setOrg_self orgs0 org _⟩

/-- C4. A newly detected id whose name part (after the first slash, lowercased)
ends with a derivative suffix is never notified, but is recorded in the freshly
stored state. -/
theorem claim_C4_variant_suppression (orgs0 : Orgs) (org : String)
    (models : List FetchedModel) (os : OrgState) (mid sfx : String)
    (h1 : lookupOrg orgs0 org = some os) (h2 : models ≠ [])
    (h3 : mid ∈ models.map FetchedModel.id) (h4 : mid ∉ os.models)
    (h5 : sfx ∈ DERIVATIVE_SUFFIXES)
    (h6 : strEndsWith (strLower (afterFirstSlash mid)) sfx = true) :
    ((poll_once orgs0 [(org, models)]).notifications.all
      (fun p => p.2 ≠ mid)) = true ∧
    lookupOrg (poll_once orgs0 [(org, models)]).orgs org
      = some ⟨dedupIds (models.map FetchedModel.id)⟩ ∧
    mid ∈ dedupIds (models.map FetchedModel.id) := by
  have hderiv : is_derivative_model mid = true := by
    rw [is_derivative_model, List.any_eq_true]
    exact ⟨sfx, h5, h6⟩
  have hmem : mid ∈ dedupIds (models.map FetchedModel.id) :=
    (mem_dedupIds mid _).mpr h3
  have hnew : ∃ x ∈ dedupIds (models.map FetchedModel.id), x ∉ os.models :=
    ⟨mid, hmem, h4⟩
  rw [poll_single_new orgs0 org models os h1 h2 hnew]
  refine ⟨?_, lookup_setOrg_self orgs0 org _, hmem⟩
  rw [List.all_eq_true]
  intro p hp
  simp only [List.mem_map, List.mem_reverse, List.mem_filter, decide_eq_true_eq] at hp
  obtain ⟨m, ⟨⟨_, hmf⟩, rfl⟩⟩ := hp
  simp only [decide_eq_true_eq]
  intro hcontra
  have hmmid : m = mid := hcontra
  subst hmmid
  exact hmf hderiv

/-- C5. A cycle repeated on an unchanged listing is silent and does not
persist; a listing whose stored representation differs from the previous one
overwrites it and persists, and an identical representation does neither. -/
theorem claim_C5_idempotence_persist (orgs0 : Orgs) (org : String)
    (models : List FetchedModel) :
    ((poll_once (poll_once orgs0 [(org, models)]).orgs [(org, models)]).notifications
        = [] ∧
      (poll_once (poll_once orgs0 [(org, models)]).orgs [(org, models)]).persisted
        = false ∧
      (poll_once (poll_once orgs0 [(org, models)]).orgs [(org, models)]).orgs
        = (poll_once orgs0 [(org, models)]).orgs) ∧
    (∀ os, lookupOrg orgs0 org = some os → models ≠ [] →
      ((dedupIds (models.map FetchedModel.id) ≠ os.models →
          (poll_once orgs0 [(org, models)]).persisted = true ∧
          lookupOrg (poll_once orgs0 [(org, models)]).orgs org
            = some ⟨dedupIds (models.map FetchedModel.id)⟩) ∧
        (dedupIds (models.map FetchedModel.id) = os.models →
          (poll_once orgs0 [(org, models)]).persisted = false ∧
          (poll_once orgs0 [(org, models)]).orgs = orgs0))) := by
  constructor
  · by_cases hm : models = []
    · subst hm
      rw [poll_single_empty, poll_single_empty]
      exact ⟨rfl, rfl, rfl⟩
    · obtain ⟨os', hl, hos'⟩ := poll_single_stores orgs0 org models hm
      rw [poll_single_same _ org models os' hl hm hos'.symm]
      exact ⟨rfl, rfl, rfl⟩
  · intro os h1 h2
    constructor
    · intro hne
      by_cases h3 : ∃ x ∈ dedupIds (models.map FetchedModel.id), x ∉ os.models
      · rw [poll_single_new orgs0 org models os h1 h2 h3]
        exact ⟨rfl, lookup_setOrg_self orgs0 org _⟩
      · push_neg at h3
        rw [poll_single_stale orgs0 org models os h1 h2 h3 hne]
        exact ⟨rfl, lookup_setOrg_self orgs0 org _⟩
    · intro heq
      rw [poll_single_same orgs0 org models os h1 h2 heq]
      exact ⟨rfl, rfl⟩

/-- The per-org loop body leaves the accumulator unchanged on an empty fetch. -/
theorem pollOrg_eq_empty (st : PollAcc) (k : String) : pollOrg st k [] = st := by
  simp [pollOrg]

/-- Branch lemma for `pollOrg`: baseline sync. -/
theorem pollOrg_eq_baseline (st : PollAcc) (k : String) (ms : List FetchedModel)
    (h1 : lookupOrg st.orgs k = none) (h2 : ms ≠ []) :
    pollOrg st k ms =
      { st with orgs := setOrg st.orgs k ⟨dedupIds (ms.map FetchedModel.id)⟩,
                changed := true } := by
  simp [pollOrg, h1, h2]

/-- Branch lemma for `pollOrg`: new ids present. -/
theorem pollOrg_eq_new (st : PollAcc) (k : String) (ms : List FetchedModel)
    (os : OrgState) (h1 : lookupOrg st.orgs k = some os) (h2 : ms ≠ [])
    (h3 : ∃ x ∈ dedupIds (ms.map FetchedModel.id), x ∉ os.models) :
    pollOrg st k ms =
      ⟨setOrg st.orgs k ⟨dedupIds (ms.map FetchedModel.id)⟩,
       st.notifications ++
         ((((dedupIds (ms.map FetchedModel.id)).filter
             (fun mid => mid ∉ os.models)).filter
             (fun mid => ¬ is_derivative_model mid)).reverse).map (fun mid => (k, mid)),
       true⟩ := by
  simp [pollOrg, h1, h2, h3]

/-- Branch lemma for `pollOrg`: nothing new, representation changed. -/
theorem pollOrg_eq_stale (st : PollAcc) (k : String) (ms : List FetchedModel)
    (os : OrgState) (h1 : lookupOrg st.orgs k = some os) (h2 : ms ≠ [])
    (h3 : ∀ x ∈ dedupIds (ms.map FetchedModel.id), x ∈ os.models)
    (h4 : dedupIds (ms.map FetchedModel.id) ≠ os.models) :
    pollOrg st k ms =
      { st with orgs := setOrg st.orgs k ⟨dedupIds (ms.map FetchedModel.id)⟩,
                changed := true } := by
  have h3' : ¬ ∃ x ∈ dedupIds (ms.map FetchedModel.id), x ∉ os.models := by
    push_neg
    exact h3
  simp [pollOrg, h1, h2, h3', h4]

/-- Branch lemma for `pollOrg`: nothing new, identical representation. -/
theorem pollOrg_eq_same (st : PollAcc) (k : String) (ms : List FetchedModel)
    (os : OrgState) (h1 : lookupOrg st.orgs k = some os) (h2 : ms ≠ [])
    (h4 : dedupIds (ms.map FetchedModel.id) = os.models) :
    pollOrg st k ms = st := by
  have h3' : ¬ ∃ x ∈ dedupIds (ms.map FetchedModel.id), x ∉ os.models := by
    push_neg
    intro a ha
    rw [← h4]
    exact ha
  simp [pollOrg, h1, h2, h3', h4]

/-- Processing another organisation never touches this organisation's entry,
and only appends notifications tagged with the other organisation. -/
theorem pollOrg_preserves (st : PollAcc) (k org : String)
    (ms : List FetchedModel) (hk : k ≠ org) :
    lookupOrg (pollOrg st k ms).orgs org = lookupOrg st.orgs org ∧
    ∀ p ∈ (pollOrg st k ms).notifications, p ∈ st.notifications ∨ p.1 = k := by
  by_cases hm : ms = []
  · subst hm
    rw [pollOrg_eq_empty]
    exact ⟨rfl, fun p hp => Or.inl hp⟩
  · cases hl : lookupOrg st.orgs k with
    | none =>
        rw [pollOrg_eq_baseline st k ms hl hm]
        exact ⟨lookup_setOrg_ne st.orgs k org _ (Ne.symm hk), fun p hp => Or.inl hp⟩
    | some os =>
        by_cases h3 : ∃ x ∈ dedupIds (ms.map FetchedModel.id), x ∉ os.models
        · rw [pollOrg_eq_new st k ms os hl hm h3]
          refine ⟨lookup_setOrg_ne st.orgs k org _ (Ne.symm hk), ?_⟩
          intro p hp
          rcases List.mem_append.mp hp with hp | hp
          · exact Or.inl hp
          · right
            obtain ⟨m, _, rfl⟩ := List.mem_map.mp hp
            rfl
        · push_neg at h3
          by_cases h4 : dedupIds (ms.map FetchedModel.id) = os.models
          · rw [pollOrg_eq_same st k ms os hl hm h4]
            exact ⟨rfl, fun p hp => Or.inl hp⟩
          · rw [pollOrg_eq_stale st k ms os hl hm h3 h4]
            exact ⟨lookup_setOrg_ne st.orgs k org _ (Ne.symm hk), fun p hp => Or.inl hp⟩

/-- Fold form of the frame property: an organisation whose every fetch result
in the cycle is empty keeps its entry and gains no notification. -/
theorem poll_fold_untouched (org : String) :
    ∀ (results : List (String × List FetchedModel)) (st : PollAcc),
      (∀ ms, (org, ms) ∈ results → ms = []) →
      lookupOrg (results.foldl (fun st p => pollOrg st p.1 p.2) st).orgs org
        = lookupOrg st.orgs org ∧
      ∀ p ∈ (results.foldl (fun st p => pollOrg st p.1 p.2) st).notifications,
        p ∈ st.notifications ∨ p.1 ≠ org := by
  intro results
  induction results with
  | nil => exact fun st h => ⟨rfl, fun p hp => Or.inl hp⟩
  | cons hd tl ih =>
      intro st h
      obtain ⟨k, ms⟩ := hd
      simp only [List.foldl_cons]
      by_cases hk : k = org
      · subst hk
        have hms : ms = [] := h ms (List.mem_cons_self _ _)
        subst hms
        have hstep : pollOrg st k [] = st := pollOrg_eq_empty st k
        simp only [hstep]
        exact ih st (fun ms2 hm => h ms2 (List.mem_cons_of_mem _ hm))
      · obtain ⟨hlook, hnot⟩ := pollOrg_preserves st k org ms hk
        obtain ⟨hlook2, hnot2⟩ :=
          ih (pollOrg st k ms) (fun ms2 hm => h ms2 (List.mem_cons_of_mem _ hm))
        refine ⟨hlook2.trans hlook, ?_⟩
        intro p hp
        rcases hnot2 p hp with hp2 | hne
        · rcases hnot p hp2 with hp3 | hpk
          · exact Or.inl hp3
          · exact Or.inr (by rw [hpk]; exact hk)
        · exact Or.inr hne

/-- C10. A publisher whose fetch came back empty (failed fetch converted to the
empty result, or a genuinely empty listing) keeps its stored entry unchanged
through the whole cycle and receives no notification. -/
theorem claim_C10_empty_fetch_frame (orgs0 : Orgs)
    (results : List (String × List FetchedModel)) (org : String)
    (h : ∀ ms, (org, ms) ∈ results → ms = []) :
    lookupOrg (poll_once orgs0 results).orgs org = lookupOrg orgs0 org ∧
    ((poll_once orgs0 results).notifications.all (fun p => p.1 ≠ org)) = true := by
  obtain ⟨hlook, hnot⟩ := poll_fold_untouched org results ⟨orgs0, [], false⟩ h
  refine ⟨hlook, ?_⟩
  rw [List.all_eq_true]
  intro p hp
  rcases hnot p hp with hp2 | hne
  · simp at hp2
  · exact decide_eq_true hne

/-- Witness for C2 (the ordering example of the spec: previous state
`[A, B]`, fetched `[D, C, A, B]`, notifications `C` then `D`). -/
theorem claim_C2_diff_ordering_witness :
    (poll_once [(("acme"), ⟨[("acme/a"), ("acme/b")]⟩)]
        [(("acme"), [⟨("acme/d"), ("t4")⟩, ⟨("acme/c"), ("t3")⟩,
          ⟨("acme/a"), ("t2")⟩, ⟨("acme/b"), ("t1")⟩])]).notifications
      = [(("acme"), ("acme/c")), (("acme"), ("acme/d"))] := by
  exact (claim_C2_diff_ordering [(("acme"), ⟨[("acme/a"), ("acme/b")]⟩)] ("acme")
    [⟨("acme/d"), ("t4")⟩, ⟨("acme/c"), ("t3")⟩, ⟨("acme/a"), ("t2")⟩,
      ⟨("acme/b"), ("t1")⟩] ⟨[("acme/a"), ("acme/b")]⟩ (by decide)
    (by decide)).trans (by decide)

/-- Witness for C3: a first sync stores the deduplicated list silently. -/
theorem claim_C3_baseline_sync_witness :
    (poll_once [] [(("acme"), [⟨("acme/x-1"), ("t")⟩, ⟨("acme/x-1"), ("t")⟩])]).notifications
      = [] ∧
    lookupOrg (poll_once []
        [(("acme"), [⟨("acme/x-1"), ("t")⟩, ⟨("acme/x-1"), ("t")⟩])]).orgs ("acme")
      = some ⟨dedupIds [("acme/x-1"), ("acme/x-1")]⟩ :=
  claim_C3_baseline_sync [] ("acme")
    [⟨("acme/x-1"), ("t")⟩, ⟨("acme/x-1"), ("t")⟩] rfl (by decide)

/-- Witness for C4: a new `org/model-gguf` is not notified but is stored. -/
theorem claim_C4_variant_suppression_witness :
    ((poll_once [(("org"), ⟨[("org/old")]⟩)]
        [(("org"), [⟨("org/Model-GGUF"), ("t")⟩])]).notifications.all
      (fun p => p.2 ≠ ("org/Model-GGUF"))) = true ∧
    lookupOrg (poll_once [(("org"), ⟨[("org/old")]⟩)]
        [(("org"), [⟨("org/Model-GGUF"), ("t")⟩])]).orgs ("org")
      = some ⟨dedupIds [("org/Model-GGUF")]⟩ ∧
    ("org/Model-GGUF") ∈ dedupIds [("org/Model-GGUF")] :=
  claim_C4_variant_suppression [(("org"), ⟨[("org/old")]⟩)] ("org")
    [⟨("org/Model-GGUF"), ("t")⟩] ⟨[("org/old")]⟩ ("org/Model-GGUF") ("-gguf")
    (by decide) (by decide) (by decide) (by decide) (by decide) (by decide)

/-- Witness for C5 (the end-to-end example of the spec): a changed listing
persists; re-polling the unchanged listing is silent with no extra persist. -/
theorem claim_C5_idempotence_persist_witness :
    (poll_once (poll_once [(("acme"), ⟨[("acme/x-1")]⟩)]
        [(("acme"), [⟨("acme/x-2"), ("t")⟩, ⟨("acme/x-1"), ("s")⟩])]).orgs
        [(("acme"), [⟨("acme/x-2"), ("t")⟩, ⟨("acme/x-1"), ("s")⟩])]).persisted
      = false ∧
    (poll_once [(("acme"), ⟨[("acme/x-1")]⟩)]
        [(("acme"), [⟨("acme/x-2"), ("t")⟩, ⟨("acme/x-1"), ("s")⟩])]).persisted
      = true := by
  refine ⟨?_, ?_⟩
  · exact (claim_C5_idempotence_persist [(("acme"), ⟨[("acme/x-1")]⟩)] ("acme")
      [⟨("acme/x-2"), ("t")⟩, ⟨("acme/x-1"), ("s")⟩]).1.2.1
  · exact (((claim_C5_idempotence_persist [(("acme"), ⟨[("acme/x-1")]⟩)] ("acme")
      [⟨("acme/x-2"), ("t")⟩, ⟨("acme/x-1"), ("s")⟩]).2 ⟨[("acme/x-1")]⟩
      (by decide) (by decide)).1 (by decide)).1

/-- Witness for C10: in a cycle where one publisher's fetch is empty and a
sibling publisher has data, the empty-fetch publisher is untouched. -/
theorem claim_C10_empty_fetch_frame_witness :
    lookupOrg (poll_once [(("acme"), ⟨[("acme/x-1")]⟩)]
        [(("acme"), []), (("beta"), [⟨("beta/m"), ("t")⟩])]).orgs ("acme")
      = some ⟨[("acme/x-1")]⟩ ∧
    ((poll_once [(("acme"), ⟨[("acme/x-1")]⟩)]
        [(("acme"), []), (("beta"), [⟨("beta/m"), ("t")⟩])]).notifications.all
      (fun p => p.1 ≠ ("acme"))) = true := by
  have h := claim_C10_empty_fetch_frame [(("acme"), ⟨[("acme/x-1")]⟩)]
    [(("acme"), []), (("beta"), [⟨("beta/m"), ("t")⟩])] ("acme") ?hms
  · exact ⟨h.1.trans (by decide), h.2⟩
  case hms =>
    intro ms hm
    rcases List.mem_cons.mp hm with he | hm2
    · exact congrArg Prod.snd he
    · rcases List.mem_singleton.mp hm2 with he2
      have h1 : ("acme" : String) = ("beta") := congrArg Prod.fst he2
      exact absurd h1 (by decide)

/- ═══════════════ pagination lemmas ═══════════════ -/

/-- The pagination loop never performs more fetches than its page budget. -/
theorem paginateAux_count_le {α : Type} (resp : Nat → PageResponse α) :
    ∀ n i, (paginateAux resp n i).2 ≤ n := by
  intro n
  induction n with
  | zero => intro i; simp [paginateAux]
  | succ n ih =>
      intro i
      rw [paginateAux]
      by_cases hb : (resp i).batch.isEmpty
      · simp [hb]
      · by_cases hlen : (resp i).batch.length < PAGE_SIZE
        · simp [hb, hlen]
        · cases hn : (resp i).next with
          | none => simp [hb, hlen, hn]
          | some u =>
              simp only [hb, hlen, hn, if_false, Bool.false_eq_true]
              exact Nat.succ_le_succ (ih (i + 1))

/-- Against an upstream that always answers a full page with a next cursor,
the loop performs exactly its page budget of fetches. -/
theorem paginateAux_count_full {α : Type} (resp : Nat → PageResponse α) :
    ∀ n i,
      (∀ j, j < n → (resp (i + j)).batch.length = PAGE_SIZE ∧ (resp (i + j)).next ≠ none) →
      (paginateAux resp n i).2 = n := by
  intro n
  induction n with
  | zero => intro i _; simp [paginateAux]
  | succ n ih =>
      intro i h
      have h0 := h 0 (Nat.succ_pos n)
      rw [Nat.add_zero] at h0
      have hb : ¬ (resp i).batch.isEmpty = true := by
        rw [List.isEmpty_iff_length_eq_zero]
        rw [h0.1]
        simp [PAGE_SIZE]
      have hlen : ¬ (resp i).batch.length < PAGE_SIZE := by
        rw [h0.1]
        exact Nat.lt_irrefl _
      cases hn : (resp i).next with
      | none => exact absurd hn h0.2
      | some u =>
          rw [paginateAux]
          simp only [hb, hlen, hn, if_false, Bool.false_eq_true]
          have hrec := ih (i + 1) (fun j hj => by
            have := h (j + 1) (Nat.succ_lt_succ hj)
            rwa [show i + (j + 1) = i + 1 + j by omega] at this)
          rw [hrec]

/-- The loop stops right after the first page that is empty, shorter than the
page size, or without a next cursor. -/
theorem paginateAux_count_stop {α : Type} (resp : Nat → PageResponse α) :
    ∀ k n i, k < n →
      (∀ j, j < k → (resp (i + j)).batch.length = PAGE_SIZE ∧ (resp (i + j)).next ≠ none) →
      ((resp (i + k)).batch.isEmpty = true ∨ (resp (i + k)).batch.length < PAGE_SIZE ∨
        (resp (i + k)).next = none) →
      (paginateAux resp n i).2 = k + 1 := by
  intro k
  induction k with
  | zero =>
      intro n i hk _ hstop
      obtain ⟨m, rfl⟩ : ∃ m, n = m + 1 := ⟨n - 1, by omega⟩
      rw [Nat.add_zero] at hstop
      rw [paginateAux]
      by_cases hb : (resp i).batch.isEmpty
      · simp [hb]
      · by_cases hlen : (resp i).batch.length < PAGE_SIZE
        · simp [hb, hlen]
        · cases hn : (resp i).next with
          | none => simp [hb, hlen, hn]
          | some u =>
              exfalso
              rcases hstop with h | h | h
              · exact hb h
              · exact hlen h
              · rw [hn] at h
                exact Option.noConfusion h
  | succ j ihj =>
      intro n i hk h hstop
      obtain ⟨m, rfl⟩ : ∃ m, n = m + 1 := ⟨n - 1, by omega⟩
      have h0 := h 0 (Nat.succ_pos j)
      rw [Nat.add_zero] at h0
      have hb : ¬ (resp i).batch.isEmpty = true := by
        rw [List.isEmpty_iff_length_eq_zero]
        rw [h0.1]
        simp [PAGE_SIZE]
      have hlen : ¬ (resp i).batch.length < PAGE_SIZE := by
        rw [h0.1]
        exact Nat.lt_irrefl _
      cases hn : (resp i).next with
      | none => exact absurd hn h0.2
      | some u =>
          rw [paginateAux]
          simp only [hb, hlen, hn, if_false, Bool.false_eq_true]
          have hrec := ihj m (i + 1) (by omega)
            (fun l hl => by
              have := h (l + 1) (Nat.succ_lt_succ hl)
              rwa [show i + (l + 1) = i + 1 + l by omega] at this)
            (by rwa [show i + 1 + j = i + (j + 1) by omega])
          rw [hrec]

/-- C6. The pagination loop performs at most its page budget of fetches (the
default budget is 50) even against an upstream that always returns a full page
with a next cursor — in that case it performs exactly the budget — and stops
right after the first empty page, short page, or cursorless response. -/
theorem claim_C6_pagination_termination {α : Type} (resp : Nat → PageResponse α)
    (n k : Nat) :
    (paginateAux resp n 0).2 ≤ n ∧
    (paginate resp).2 ≤ 50 ∧
    ((∀ j, j < n → (resp j).batch.length = PAGE_SIZE ∧ (resp j).next ≠ none) →
      (paginateAux resp n 0).2 = n) ∧
    (k < n →
      (∀ j, j < k → (resp j).batch.length = PAGE_SIZE ∧ (resp j).next ≠ none) →
      ((resp k).batch.isEmpty = true ∨ (resp k).batch.length < PAGE_SIZE ∨
        (resp k).next = none) →
      (paginateAux resp n 0).2 = k + 1) := by
  refine ⟨paginateAux_count_le resp n 0, paginateAux_count_le resp 50 0, ?_, ?_⟩
  · intro h
    exact paginateAux_count_full resp n 0 (fun j hj => by
      have := h j hj
      rwa [Nat.zero_add])
  · intro hk h hstop
    exact paginateAux_count_stop resp k n 0 hk
      (fun j hj => by
        have := h j hj
        rwa [Nat.zero_add])
      (by rwa [Nat.zero_add])

/-- Witness for C6: a misbehaving always-full upstream is cut off at exactly
50 fetches; an upstream whose first page is short is fetched exactly once. -/
theorem claim_C6_pagination_termination_witness :
    (paginate (fun _ => PageResponse.mk (List.replicate PAGE_SIZE ()) (some ("u")))).2
      = 50 ∧
    (paginate (fun _ => PageResponse.mk [()] (some ("u")))).2 = 1 := by
  constructor
  · exact (claim_C6_pagination_termination
      (fun _ => PageResponse.mk (List.replicate PAGE_SIZE ()) (some ("u"))) 50 0).2.2.1
      (fun j _ => ⟨List.length_replicate _ _, by simp⟩)
  · exact (claim_C6_pagination_termination
      (fun _ => PageResponse.mk [()] (some ("u"))) 50 0).2.2.2 (by omega)
      (fun j hj => absurd hj (Nat.not_lt_zero j))
      (Or.inr (Or.inl (by norm_num [PAGE_SIZE])))

/- ═══════════════ state-store lemmas ═══════════════ -/

/-- Lookup distributes over object concatenation, first object first. -/
theorem jLookup_append (m l : List (String × Json)) (key : String) :
    jLookup (m ++ l) key =
      match jLookup m key with
      | some v => some v
      | none => jLookup l key := by
  induction m with
  | nil => simp [jLookup]
  | cons kv rest ih =>
      obtain ⟨k, v⟩ := kv
      by_cases hk : k = key
      · simp [jLookup, hk]
      · simp [jLookup, hk, ih]

/-- `setdefault` makes the key present, keeping an existing value. -/
theorem jLookup_setdefault_self (m : List (String × Json)) (k : String) (v : Json) :
    jLookup (jSetdefault m k v) k = some ((jLookup m k).getD v) := by
  cases h : jLookup m k with
  | some x => rw [jSetdefault, h]; simp [h]
  | none =>
      rw [jSetdefault, h, jLookup_append, h]
      simp [jLookup]

/-- `setdefault` leaves every other key untouched. -/
theorem jLookup_setdefault_other (m : List (String × Json)) (k : String) (v : Json)
    (key : String) (h : key ≠ k) :
    jLookup (jSetdefault m k v) key = jLookup m key := by
  cases hm : jLookup m k with
  | some x => rw [jSetdefault, hm]
  | none =>
      rw [jSetdefault, hm, jLookup_append]
      cases hkey : jLookup m key with
      | some y => rfl
      | none =>
          simp only [jLookup]
          rw [if_neg (fun e => h e.symm)]

/-- C9. The never-raises claim fails on the code: a state file whose bytes are
not valid UTF-8 makes `json.load` raise `UnicodeDecodeError`, which the
`except (FileNotFoundError, OSError, json.JSONDecodeError)` clause does not
catch, so `load_state` raises instead of returning the fresh empty document.
Everywhere else the claimed behaviour holds: a caught failure or a non-dict
document yields the fresh empty document, and a dict is returned with each of
the three top-level keys defaulted to its empty container when missing and
kept verbatim when present, all other keys untouched. -/
theorem claim_C9_load_state_defaults (j : Json)
    (fields : List (String × Json)) (key : String) :
    (load_state .undecodable = .error ()) ∧
    (load_state .failure = .ok emptyState) ∧
    ((∀ fs, j ≠ .obj fs) → load_state (.content j) = .ok emptyState) ∧
    (load_state (.content (.obj fields)) = .ok (.obj (loadStateFields fields))) ∧
    ((key = ("orgs") ∨ key = ("chat_users")) →
      jLookup (loadStateFields fields) key
        = some ((jLookup fields key).getD (.obj []))) ∧
    (key = ("question_bank") →
      jLookup (loadStateFields fields) key
        = some ((jLookup fields key).getD (.arr []))) ∧
    (key ∉ [("orgs"), ("chat_users"), ("question_bank")] →
      jLookup (loadStateFields fields) key = jLookup fields key) := by
  refine ⟨rfl, rfl, ?_, rfl, ?_, ?_, ?_⟩
  · intro hne
    cases j with
    | null => rfl
    | bool b => rfl
    | num n => rfl
    | str s => rfl
    | arr xs => rfl
    | obj fs => exact absurd rfl (hne fs)
  · rintro (rfl | rfl)
    · rw [loadStateFields,
        jLookup_setdefault_other _ _ _ _ (by decide),
        jLookup_setdefault_other _ _ _ _ (by decide),
        jLookup_setdefault_self]
    · rw [loadStateFields,
        jLookup_setdefault_other _ _ _ _ (by decide),
        jLookup_setdefault_self,
        jLookup_setdefault_other _ _ _ _ (by decide)]
  · rintro rfl
    rw [loadStateFields,
      jLookup_setdefault_self,
      jLookup_setdefault_other _ _ _ _ (by decide),
      jLookup_setdefault_other _ _ _ _ (by decide)]
  · intro hnot
    simp only [List.mem_cons, List.mem_singleton, not_or] at hnot
    obtain ⟨h1, h2, h3⟩ := hnot
    rw [loadStateFields,
      jLookup_setdefault_other _ _ _ _ (by simpa using h3),
      jLookup_setdefault_other _ _ _ _ (by simpa using h2),
      jLookup_setdefault_other _ _ _ _ (by simpa using h1)]

/-- Witness for C9: undecodable content escapes as an error (the uncaught
`UnicodeDecodeError`); a read failure and a non-dict document yield the empty
document; a dict with a pre-existing (even wrongly-typed) `orgs` value and an
unknown key keeps both and gains the missing containers. -/
theorem claim_C9_load_state_defaults_witness :
    load_state .undecodable = .error () ∧
    load_state .failure = .ok emptyState ∧
    load_state (.content (.num 7)) = .ok emptyState ∧
    jLookup (loadStateFields [(("orgs"), .num 5), (("extra"), .null)]) ("orgs")
      = some (.num 5) ∧
    jLookup (loadStateFields [(("orgs"), .num 5), (("extra"), .null)]) ("question_bank")
      = some (.arr []) ∧
    jLookup (loadStateFields [(("orgs"), .num 5), (("extra"), .null)]) ("extra")
      = some .null := by
  have h := claim_C9_load_state_defaults (.num 7)
    [(("orgs"), .num 5), (("extra"), .null)] ("orgs")
  have h2 := claim_C9_load_state_defaults (.num 7)
    [(("orgs"), .num 5), (("extra"), .null)] ("question_bank")
  have h3 := claim_C9_load_state_defaults (.num 7)
    [(("orgs"), .num 5), (("extra"), .null)] ("extra")
  refine ⟨h.1, h.2.1, h.2.2.1 (fun fs he => Json.noConfusion he), ?_, ?_, ?_⟩
  · exact (h.2.2.2.2.1 (Or.inl rfl)).trans rfl
  · exact (h2.2.2.2.2.2.1 rfl).trans rfl
  · exact (h3.2.2.2.2.2.2 (by decide)).trans rfl

/- ═══════════════ duel-race lemmas ═══════════════ -/

/-- Both atomic steps preserve the reachable-state set. -/
theorem duelReach_step (b : Battle) (w : DuelWorld) (h : DuelReach b w) :
    DuelReach b (stepEval w) ∧ DuelReach b (stepTimer w) := by
  rcases h with rfl | rfl | rfl | rfl | rfl | rfl | rfl | rfl <;>
    exact ⟨by simp [stepEval, stepTimer, DuelReach],
           by simp [stepEval, stepTimer, DuelReach]⟩

/-- Every interleaving stays inside the reachable-state set. -/
theorem duelReach_run (b : Battle) :
    ∀ (ts : List DuelTurn) (w : DuelWorld),
      DuelReach b w → DuelReach b (runSched ts w) := by
  intro ts
  induction ts with
  | nil => exact fun w h => h
  | cons t rest ih =>
      intro w h
      cases t with
      | eval => exact ih (stepEval w) (duelReach_step b w h).1
      | timer => exact ih (stepTimer w) (duelReach_step b w h).2

/-- Counterexample to C1 as stated: in the interleaving where the timeout job
fires while the evaluation path is suspended between its session read and its
session delete, the evaluation path still sends its verdict, so both the
timeout message and the result message are produced even though both racers
ran to completion. -/
theorem claim_C1_race_counterexample :
    (runSched [.eval, .timer, .eval]
      (duelInit ⟨("q"), ("a"), ("serious")⟩)).messages = [.timeout, .result] ∧
    (runSched [.eval, .timer, .eval]
      (duelInit ⟨("q"), ("a"), ("serious")⟩)).evalPhase = 2 ∧
    (runSched [.eval, .timer, .eval]
      (duelInit ⟨("q"), ("a"), ("serious")⟩)).timerFired = true := by
  decide

/-- C1 (amended). Once both the evaluation path and the expiry timer have run
to completion, at least one of the result and timeout messages has been
produced — exactly one in every schedule except the one where the timer fires
between the evaluation path's session read and its session delete, where both
are produced (timeout first). -/
theorem claim_C1_race_amended (b : Battle) (ts : List DuelTurn)
    (hdone : (runSched ts (duelInit b)).evalPhase = 2 ∧
      (runSched ts (duelInit b)).timerFired = true) :
    (runSched ts (duelInit b)).messages = [.result] ∨
    (runSched ts (duelInit b)).messages = [.timeout] ∨
    (runSched ts (duelInit b)).messages = [.timeout, .result] := by
  have h := duelReach_run b ts (duelInit b) (Or.inl rfl)
  rcases h with h | h | h | h | h | h | h | h <;> rw [h] at hdone ⊢ <;> simp_all

/-- Witness for the amended C1: a schedule where evaluation completes before
the timer fires yields a completed race. -/
theorem claim_C1_race_amended_witness :
    (runSched [.eval, .eval, .timer]
        (duelInit ⟨("q"), ("a"), ("serious")⟩)).messages = [.result] ∨
    (runSched [.eval, .eval, .timer]
        (duelInit ⟨("q"), ("a"), ("serious")⟩)).messages = [.timeout] ∨
    (runSched [.eval, .eval, .timer]
        (duelInit ⟨("q"), ("a"), ("serious")⟩)).messages = [.timeout, .result] :=
  claim_C1_race_amended ⟨("q"), ("a"), ("serious")⟩ [.eval, .eval, .timer]
    (by decide)

/- ═══════════════ aggregator lemmas ═══════════════ -/

/-- A raised/timed-out task outcome is skipped by the classification loop. -/
theorem classifyStep_error (acc : Classified) (t : TaskOutcome)
    (h : taskOk t = false) : classifyStep acc t = acc := by
  cases t with
  | modelTask r => cases r with
      | error e => rfl
      | ok v => simp [taskOk] at h
  | searchTask r => cases r with
      | error e => rfl
      | ok v => simp [taskOk] at h
  | arxivTask r => cases r with
      | error e => rfl
      | ok v => simp [taskOk] at h
  | urlTask r => cases r with
      | error e => rfl
      | ok v => simp [taskOk] at h
  | webTask r => cases r with
      | error e => rfl
      | ok v => simp [taskOk] at h

/-- Folding the classification loop ignores the failed outcomes. -/
theorem foldl_classify_filter :
    ∀ (tasks : List TaskOutcome) (acc : Classified),
      tasks.foldl classifyStep acc = (tasks.filter taskOk).foldl classifyStep acc := by
  intro tasks
  induction tasks with
  | nil => intro acc; rfl
  | cons t rest ih =>
      intro acc
      cases h : taskOk t with
      | true => simp [List.filter_cons, h, ih]
      | false => simp [List.filter_cons, h, ih, classifyStep_error acc t h]

/-- C7. The aggregator is a total function of the joined task outcomes, and
its result is assembled only from the successful tasks: the failed tasks can
be deleted from the task list without changing the merged context, so one
task's failure neither aborts siblings nor escapes the aggregator. -/
theorem claim_C7_aggregator_resilience (formatResults : List SearchHit → String)
    (tasks tasks2 : List TaskOutcome) (t : TaskOutcome) :
    gather_context formatResults tasks
      = gather_context formatResults (tasks.filter taskOk) ∧
    (taskOk t = false →
      gather_context formatResults (tasks ++ t :: tasks2)
        = gather_context formatResults (tasks ++ tasks2)) := by
  constructor
  · rw [gather_context, gather_context, foldl_classify_filter]
  · intro h
    rw [gather_context, gather_context, foldl_classify_filter,
      foldl_classify_filter (tasks ++ tasks2), List.filter_append,
      List.filter_append, List.filter_cons, h]
    simp

/-- Witness for C7 (the spec's resilience example): five fan-out tasks of
which two fail produce the same non-empty merged context as the three
successful tasks alone. -/
theorem claim_C7_aggregator_resilience_witness :
    gather_context (fun _ => (""))
        [.modelTask (.ok (some ("ID: org/a"), [])),
         .urlTask (.error ()),
         .searchTask (.ok (some ("ID: org/b"), [])),
         .webTask (.error ()),
         .arxivTask (.ok (some ("paper text")))]
      = gather_context (fun _ => (""))
        [.modelTask (.ok (some ("ID: org/a"), [])),
         .searchTask (.ok (some ("ID: org/b"), [])),
         .arxivTask (.ok (some ("paper text")))] ∧
    (gather_context (fun _ => (""))
        [.modelTask (.ok (some ("ID: org/a"), [])),
         .urlTask (.error ()),
         .searchTask (.ok (some ("ID: org/b"), [])),
         .webTask (.error ()),
         .arxivTask (.ok (some ("paper text")))]).hf_context ≠ none ∧
    gather_context (fun _ => (""))
        ([.modelTask (.ok (some ("ID: org/a"), []))]
          ++ .urlTask (.error ()) :: [])
      = gather_context (fun _ => (""))
        ([.modelTask (.ok (some ("ID: org/a"), []))] ++ []) := by
  refine ⟨?_, ?_, ?_⟩
  · exact ((claim_C7_aggregator_resilience (fun _ => (""))
      [.modelTask (.ok (some ("ID: org/a"), [])),
       .urlTask (.error ()),
       .searchTask (.ok (some ("ID: org/b"), [])),
       .webTask (.error ()),
       .arxivTask (.ok (some ("paper text")))] [] (.urlTask (.error ()))).1).trans
      (by rfl)
  · rw [((claim_C7_aggregator_resilience (fun _ => (""))
      [.modelTask (.ok (some ("ID: org/a"), [])),
       .urlTask (.error ()),
       .searchTask (.ok (some ("ID: org/b"), [])),
       .webTask (.error ()),
       .arxivTask (.ok (some ("paper text")))] [] (.urlTask (.error ()))).1)]
    decide
  · exact (claim_C7_aggregator_resilience (fun _ => (""))
      [.modelTask (.ok (some ("ID: org/a"), []))] []
      (.urlTask (.error ()))).2 rfl

/- ═══════════════ image-extraction lemmas ═══════════════ -/

/-- The seen-set uniqueness loop yields a duplicate-free list. -/
theorem uniqueLoop_nodup :
    ∀ (l seen acc : List String), acc.Nodup → (∀ a ∈ acc, a ∈ seen) →
      (uniqueLoop seen acc l).Nodup := by
  intro l
  induction l with
  | nil => intro seen acc h1 _; exact h1
  | cons u rest ih =>
      intro seen acc h1 h2
      by_cases hu : u ∈ seen
      · rw [uniqueLoop, if_pos hu]
        exact ih seen acc h1 h2
      · rw [uniqueLoop, if_neg hu]
        refine ih (u :: seen) (acc ++ [u]) ?_ ?_
        · rw [List.nodup_append]
          exact ⟨h1, List.nodup_singleton u,
            fun a ha hb => hu (by rw [← List.mem_singleton.mp hb]; exact h2 a ha)⟩
        · intro a ha
          rcases List.mem_append.mp ha with ha | ha
          · exact List.mem_cons_of_mem _ (h2 a ha)
          · rw [List.mem_singleton.mp ha]
            exact List.mem_cons_self _ _

/-- The uniqueness loop appends a sublist of its input to the accumulator. -/
theorem uniqueLoop_sublist :
    ∀ (l seen acc : List String),
      ∃ sub, uniqueLoop seen acc l = acc ++ sub ∧ sub.Sublist l := by
  intro l
  induction l with
  | nil => intro seen acc; exact ⟨[], by simp [uniqueLoop], List.nil_sublist []⟩
  | cons u rest ih =>
      intro seen acc
      by_cases hu : u ∈ seen
      · obtain ⟨sub, heq, hsub⟩ := ih seen acc
        exact ⟨sub, by rw [uniqueLoop, if_pos hu]; exact heq, hsub.cons u⟩
      · obtain ⟨sub, heq, hsub⟩ := ih (u :: seen) (acc ++ [u])
        refine ⟨u :: sub, ?_, hsub.cons₂ u⟩
        rw [uniqueLoop, if_neg hu, heq]
        simp

/-- A sublist of an all-true block followed by an all-false block splits as
its true-filter followed by its false-filter. -/
theorem sublist_partition_split (p : String → Bool) (l r o : List String)
    (h : l.Sublist (r ++ o)) (hr : ∀ x ∈ r, p x = true)
    (ho : ∀ x ∈ o, p x = false) :
    l = l.filter p ++ l.filter (fun x => !(p x)) := by
  obtain ⟨x, y, rfl, hx, hy⟩ := List.sublist_append_iff.mp h
  have hxf : x.filter p = x :=
    List.filter_eq_self.mpr (fun a ha => hr a (hx.subset ha))
  have hyf : y.filter p = [] :=
    List.filter_eq_nil_iff.mpr (fun a ha => by rw [ho a (hy.subset ha)]; simp)
  have hxf2 : x.filter (fun u => !(p u)) = [] :=
    List.filter_eq_nil_iff.mpr (fun a ha => by rw [hr a (hx.subset ha)]; simp)
  have hyf2 : y.filter (fun u => !(p u)) = y :=
    List.filter_eq_self.mpr (fun a ha => by rw [ho a (hy.subset ha)]; rfl)
  rw [List.filter_append, List.filter_append, hxf, hyf, hxf2, hyf2,
    List.append_nil, List.nil_append]

/-- Every URL the normalisation loop emits comes from a stripped raw candidate
that passed the decorative filter, either verbatim or made absolute. -/
theorem mem_normalizeImgs (mid u : String) :
    ∀ raw, u ∈ normalizeImgs mid raw →
      ∃ r ∈ raw, isDecorative (pyStrip r) = false ∧
        (u = pyStrip r ∨ u = resolveRelative mid (pyStrip r)) := by
  intro raw
  induction raw with
  | nil => intro h; simp [normalizeImgs] at h
  | cons r rest ih =>
      intro h
      rw [normalizeImgs] at h
      by_cases hd : isDecorative (pyStrip r)
      · rw [if_pos hd] at h
        obtain ⟨r2, hr2, hprop⟩ := ih h
        exact ⟨r2, List.mem_cons_of_mem _ hr2, hprop⟩
      · rw [if_neg hd] at h
        by_cases hh : strStartsWith (pyStrip r) ("http")
        · rw [if_pos hh] at h
          rcases List.mem_cons.mp h with rfl | h2
          · exact ⟨r, List.mem_cons_self _ _, Bool.eq_false_iff.mpr hd, Or.inl rfl⟩
          · obtain ⟨r2, hr2, hprop⟩ := ih h2
            exact ⟨r2, List.mem_cons_of_mem _ hr2, hprop⟩
        · rw [if_neg hh] at h
          rcases List.mem_cons.mp h with rfl | h2
          · exact ⟨r, List.mem_cons_self _ _, Bool.eq_false_iff.mpr hd, Or.inr rfl⟩
          · obtain ⟨r2, hr2, hprop⟩ := ih h2
            exact ⟨r2, List.mem_cons_of_mem _ hr2, hprop⟩

/-- One classification step appends exactly the task's image contribution. -/
theorem classifyStep_images (acc : Classified) (t : TaskOutcome) :
    (classifyStep acc t).all_images = acc.all_images ++ taskImages t := by
  cases t with
  | modelTask r => cases r with
      | error e => simp [classifyStep, taskImages]
      | ok v =>
          obtain ⟨text, imgs⟩ := v
          by_cases himgs : imgs = [] <;> by_cases htext : strTruthy text <;>
            simp [classifyStep, applyModelData, taskImages, himgs, htext]
  | searchTask r => cases r with
      | error e => simp [classifyStep, taskImages]
      | ok v =>
          obtain ⟨text, imgs⟩ := v
          by_cases himgs : imgs = [] <;> by_cases htext : strTruthy text <;>
            simp [classifyStep, applyModelData, taskImages, himgs, htext]
  | arxivTask r => cases r with
      | error e => simp [classifyStep, taskImages]
      | ok c =>
          by_cases hc : strTruthy c <;> simp [classifyStep, taskImages, hc]
  | urlTask r => cases r with
      | error e => simp [classifyStep, taskImages]
      | ok c =>
          by_cases hc : strTruthy c <;> simp [classifyStep, taskImages, hc]
  | webTask r => cases r with
      | error e => simp [classifyStep, taskImages]
      | ok rs => simp [classifyStep, taskImages]

/-- The image pool after classification is the per-task image lists joined in
task order. -/
theorem foldl_classify_images :
    ∀ (tasks : List TaskOutcome) (acc : Classified),
      (tasks.foldl classifyStep acc).all_images
        = acc.all_images ++ (tasks.map taskImages).join := by
  intro tasks
  induction tasks with
  | nil => intro acc; simp
  | cons t rest ih =>
      intro acc
      rw [List.foldl_cons, ih, classifyStep_images]
      simp [List.append_assoc]

/-- Counterexample to C8 as stated: two sibling tasks whose READMEs carry the
same chart image each contribute it after their own per-task deduplication;
the aggregated `image_urls` list concatenates them and keeps the duplicate. -/
theorem claim_C8_images_counterexample :
    ¬ ((gather_context (fun _ => (""))
        [.modelTask (.ok (some ("ID: org/a"),
           extract_images [("http://x/result.png")] ("org/a") 3)),
         .searchTask (.ok (some ("ID: org/b"),
           extract_images [("http://x/result.png")] ("org/b") 3))]).image_urls).Nodup := by
  decide

/-- C8 (amended). Deduplication, the decorative filter, keyword-first
re-ranking and the per-call cap all hold within one task's extraction; across
tasks the per-task lists are only concatenated in task order and capped to 3
in total, with no cross-task deduplication or re-ranking. -/
theorem claim_C8_images_amended (raw : List String) (mid : String) (k : Nat)
    (formatResults : List SearchHit → String) (tasks : List TaskOutcome) :
    (extract_images raw mid k).Nodup ∧
    (extract_images raw mid k).length ≤ k ∧
    (extract_images raw mid k
      = (extract_images raw mid k).filter (fun u => isRelevantImg u)
        ++ (extract_images raw mid k).filter (fun u => !(isRelevantImg u))) ∧
    (∀ u ∈ extract_images raw mid k, ∃ r ∈ raw,
      isDecorative (pyStrip r) = false ∧
      (u = pyStrip r ∨ u = resolveRelative mid (pyStrip r))) ∧
    ((gather_context formatResults tasks).image_urls
      = ((tasks.map taskImages).join).take 3) ∧
    (gather_context formatResults tasks).image_urls.length ≤ 3 := by
  have hsub : (extract_images raw mid k).Sublist
      ((normalizeImgs mid raw).filter (fun u => isRelevantImg u)
        ++ (normalizeImgs mid raw).filter (fun u => ¬ isRelevantImg u)) := by
    obtain ⟨sub, heq, hs⟩ := uniqueLoop_sublist
      ((normalizeImgs mid raw).filter (fun u => isRelevantImg u)
        ++ (normalizeImgs mid raw).filter (fun u => ¬ isRelevantImg u)) [] []
    rw [extract_images, heq, List.nil_append]
    exact (List.take_sublist k sub).trans hs
  have himg : (gather_context formatResults tasks).image_urls
      = ((tasks.map taskImages).join).take 3 := by
    rw [gather_context, assembleContext, foldl_classify_images]
    rfl
  refine ⟨?_, ?_, ?_, ?_, himg, ?_⟩
  · rw [extract_images]
    exact (List.take_sublist k _).nodup
      (uniqueLoop_nodup _ [] [] (List.nodup_nil) (fun a ha => absurd ha (List.not_mem_nil a)))
  · rw [extract_images, List.length_take]
    exact min_le_left _ _
  · refine sublist_partition_split (fun u => isRelevantImg u) _ _ _ hsub ?_ ?_
    · intro x hx
      exact (List.mem_filter.mp hx).2
    · intro x hx
      have := (List.mem_filter.mp hx).2
      simpa using this
  · intro u hu
    have hmem : u ∈ (normalizeImgs mid raw).filter (fun u => isRelevantImg u)
        ++ (normalizeImgs mid raw).filter (fun u => ¬ isRelevantImg u) :=
      hsub.subset hu
    have hnorm : u ∈ normalizeImgs mid raw := by
      rcases List.mem_append.mp hmem with h | h
      · exact (List.mem_filter.mp h).1
      · exact (List.mem_filter.mp h).1
    exact mem_normalizeImgs mid u raw hnorm
  · rw [himg, List.length_take]
    exact min_le_left _ _

/-- Witness for the amended C8 at a concrete extraction and fan-out: the
per-task list is duplicate-free, capped and keyword-first; the aggregate is
the capped concatenation. -/
theorem claim_C8_images_amended_witness :
    (extract_images [("logo.png"), ("chart.png"), ("x.png"), ("chart.png")]
      ("org/a") 3).Nodup ∧
    (extract_images [("logo.png"), ("chart.png"), ("x.png"), ("chart.png")]
      ("org/a") 3).length ≤ 3 ∧
    (gather_context (fun _ => (""))
        [.modelTask (.ok (some ("ID: org/a"), [("u1"), ("u2")])),
         .searchTask (.ok (some ("ID: org/b"), [("u1"), ("u3")]))]).image_urls
      = ((([.modelTask (.ok (some ("ID: org/a"), [("u1"), ("u2")])),
           .searchTask (.ok (some ("ID: org/b"), [("u1"), ("u3")]))] :
             List TaskOutcome).map taskImages).join).take 3 := by
  refine ⟨?_, ?_, ?_⟩
  · exact (claim_C8_images_amended
      [("logo.png"), ("chart.png"), ("x.png"), ("chart.png")] ("org/a") 3
      (fun _ => ("")) []).1
  · exact (claim_C8_images_amended
      [("logo.png"), ("chart.png"), ("x.png"), ("chart.png")] ("org/a") 3
      (fun _ => ("")) []).2.1
  · exact (claim_C8_images_amended
      [("logo.png"), ("chart.png"), ("x.png"), ("chart.png")] ("org/a") 3
      (fun _ => (""))
      [.modelTask (.ok (some ("ID: org/a"), [("u1"), ("u2")])),
       .searchTask (.ok (some ("ID: org/b"), [("u1"), ("u3")]))]).2.2.2.2.1

end HfBot
